import Mathlib

/-!
Verification of the diff-flattening and tabular-report pipeline of the
CPI_Analyser repository.

The development shallowly embeds the JavaScript sources:
- `src/backend/src/utils/diffFlatten.js` (`isObject`, `clone`, `pushChange`,
  `walkDelta`, `flattenJsonDiff`),
- the PDF generator's re-implementation (`flattenDelta`, `safeCell`,
  `dequote`, `safeCellTruncated`),
- the table-building route handlers in `src/backend/src/index.js`
  (`/api/tables/fromReport` grouping, `/api/template/upload` added-only mode).

Modelling conventions:
- JavaScript JSON-compatible values are the inductive `JVal`.  Objects are
  association lists in iteration order (`Object.keys` order; the spec only
  requires a stable implementation-defined order).  `JVal.cyclic` stands for
  a leaf value on which `JSON.stringify` throws (a cyclic structure or a
  BigInt); such a value cannot occur as a mapping-shaped delta node in this
  model, which matches its role in the code as an attached leaf value.
- JavaScript `undefined` at record/cell level is `Option.none`.
- JavaScript string length (UTF-16 code units) is modelled as the
  code-point length `String.length`; no claim involves astral characters.
- Machine numbers are `Int`; the code only compares numbers to the literal
  `0` with `===`, which `= JVal.num 0` captures exactly.
-/

/-- JavaScript JSON-compatible values.  `cyclic i` models a value on which
`JSON.stringify` throws (e.g. a cyclic structure); the identifier `i` only
distinguishes different such values. -/
inductive JVal where
  | null
  | bool (b : Bool)
  | num (n : Int)
  | str (s : String)
  | arr (elems : List JVal)
  | obj (fields : List (String × JVal))
  | cyclic (id : Nat)
deriving Repr

mutual

/-- Decidable equality for `JVal`, written by hand because the nested
`List` occurrences defeat the automatic deriving handler. -/
def decEqJVal (v w : JVal) : Decidable (v = w) :=
  match v, w with
  | .null, .null => isTrue rfl
  | .bool b, .bool c =>
    match decEq b c with
    | isTrue h => isTrue (by rw [h])
    | isFalse _ => isFalse (by intro hh; injection hh; contradiction)
  | .num n, .num m =>
    match decEq n m with
    | isTrue h => isTrue (by rw [h])
    | isFalse _ => isFalse (by intro hh; injection hh; contradiction)
  | .str s, .str t =>
    match decEq s t with
    | isTrue h => isTrue (by rw [h])
    | isFalse _ => isFalse (by intro hh; injection hh; contradiction)
  | .arr xs, .arr ys =>
    match decEqJValList xs ys with
    | isTrue h => isTrue (by rw [h])
    | isFalse _ => isFalse (by intro hh; injection hh; contradiction)
  | .obj fs, .obj gs =>
    match decEqJFieldList fs gs with
    | isTrue h => isTrue (by rw [h])
    | isFalse _ => isFalse (by intro hh; injection hh; contradiction)
  | .cyclic i, .cyclic j =>
    match decEq i j with
    | isTrue h => isTrue (by rw [h])
    | isFalse _ => isFalse (by intro hh; injection hh; contradiction)
  | .null, .bool _ | .null, .num _ | .null, .str _ | .null, .arr _ | .null, .obj _
  | .null, .cyclic _ | .bool _, .null | .bool _, .num _ | .bool _, .str _
  | .bool _, .arr _ | .bool _, .obj _ | .bool _, .cyclic _ | .num _, .null
  | .num _, .bool _ | .num _, .str _ | .num _, .arr _ | .num _, .obj _
  | .num _, .cyclic _ | .str _, .null | .str _, .bool _ | .str _, .num _
  | .str _, .arr _ | .str _, .obj _ | .str _, .cyclic _ | .arr _, .null
  | .arr _, .bool _ | .arr _, .num _ | .arr _, .str _ | .arr _, .obj _
  | .arr _, .cyclic _ | .obj _, .null | .obj _, .bool _ | .obj _, .num _
  | .obj _, .str _ | .obj _, .arr _ | .obj _, .cyclic _ | .cyclic _, .null
  | .cyclic _, .bool _ | .cyclic _, .num _ | .cyclic _, .str _ | .cyclic _, .arr _
  | .cyclic _, .obj _ => isFalse (by intro hh; exact JVal.noConfusion hh)

/-- Decidable equality for lists of values. -/
def decEqJValList (xs ys : List JVal) : Decidable (xs = ys) :=
  match xs, ys with
  | [], [] => isTrue rfl
  | _ :: _, [] | [], _ :: _ => isFalse (by intro hh; exact List.noConfusion hh)
  | x :: xs, y :: ys =>
    match decEqJVal x y, decEqJValList xs ys with
    | isTrue h1, isTrue h2 => isTrue (by rw [h1, h2])
    | isFalse _, _ => isFalse (by intro hh; injection hh; contradiction)
    | _, isFalse _ => isFalse (by intro hh; injection hh; contradiction)

/-- Decidable equality for object field lists. -/
def decEqJFieldList (fs gs : List (String × JVal)) : Decidable (fs = gs) :=
  match fs, gs with
  | [], [] => isTrue rfl
  | _ :: _, [] | [], _ :: _ => isFalse (by intro hh; exact List.noConfusion hh)
  | (k, v) :: fs, (l, w) :: gs =>
    match decEq k l, decEqJVal v w, decEqJFieldList fs gs with
    | isTrue h1, isTrue h2, isTrue h3 => isTrue (by rw [h1, h2, h3])
    | isFalse _, _, _ =>
      isFalse (by intro hh; injection hh with hp _; injection hp; contradiction)
    | _, isFalse _, _ =>
      isFalse (by intro hh; injection hh with hp _; injection hp; contradiction)
    | _, _, isFalse _ => isFalse (by intro hh; injection hh; contradiction)

end

instance : DecidableEq JVal := decEqJVal

/-- Property access `fields[k]` on a JavaScript object modelled as an
association list: the first binding of the key, `none` when absent
(JavaScript yields `undefined`). -/
def lookupField (fields : List (String × JVal)) (k : String) : Option JVal :=
  match fields with
  | [] => none
  | (key, v) :: rest => if key = k then some v else lookupField rest k

/-- One flat change row `{ path, before, after }` as produced by
`diffFlatten.js`; `none` models a JavaScript `undefined` field. -/
structure ChangeRecord where
  path : String
  before : Option JVal
  after : Option JVal
deriving Repr, DecidableEq

/-- JavaScript truthiness on `JVal`: `null`, `false`, `0` and `""` are
falsy; every array and object (even empty) is truthy, as is a cyclic
object.  Used for the `delta || {}` defaults in the sources. -/
def jsFalsy : JVal → Bool
  | .null => true
  | .bool b => !b
  | .num n => n = 0
  | .str s => s = ""
  | .arr _ => false
  | .obj _ => false
  | .cyclic _ => false

/-- Hexadecimal digit character (lowercase, as printed by
`JSON.stringify` escape sequences). -/
def hexDigitChar (n : Nat) : Char :=
  if n < 10 then Char.ofNat (48 + n) else Char.ofNat (87 + n)

/-- Four-digit lowercase hexadecimal rendering of a code point below
`0x10000`, for `\uXXXX` escapes. -/
def hex4 (n : Nat) : String :=
  ⟨[hexDigitChar (n / 4096 % 16), hexDigitChar (n / 256 % 16),
    hexDigitChar (n / 16 % 16), hexDigitChar (n % 16)]⟩

/-- Escape of one character inside a JSON string literal, following
`JSON.stringify`: quote and backslash get a backslash, the named control
escapes are used where they exist, any other control character becomes a
`\uXXXX` escape, and everything else is emitted verbatim. -/
def escapeJsonChar (c : Char) : List Char :=
  if c = '"' then ['\\', '"']
  else if c = '\\' then ['\\', '\\']
  else if c = '\x08' then ['\\', 'b']
  else if c = '\x09' then ['\\', 't']
  else if c = '\x0a' then ['\\', 'n']
  else if c = '\x0c' then ['\\', 'f']
  else if c = '\x0d' then ['\\', 'r']
  else if c.toNat < 32 then '\\' :: 'u' :: (hex4 c.toNat).data
  else [c]

/-- JSON string literal for `s`: opening quote, escaped characters,
closing quote. -/
def quoteJsonString (s : String) : String :=
  ⟨'"' :: (s.data.flatMap escapeJsonChar) ++ ['"']⟩

mutual

/-- Compact `JSON.stringify` on a `JVal`; `none` models the `TypeError`
thrown on a value containing a cyclic (non-serializable) part.  Integers
print as JavaScript prints integral numbers. -/
def stringifyJson : JVal → Option String
  | .null => some "null"
  | .bool b => some (if b then "true" else "false")
  | .num n => some (toString n)
  | .str s => some (quoteJsonString s)
  | .arr xs =>
    match stringifyJsonList xs with
    | some parts => some ("[" ++ String.intercalate "," parts ++ "]")
    | none => none
  | .obj fs =>
    match stringifyJsonFields fs with
    | some parts => some ("\x7b" ++ String.intercalate "," parts ++ "\x7d")
    | none => none
  | .cyclic _ => none

/-- Serialized forms of array elements, failing if any element fails. -/
def stringifyJsonList : List JVal → Option (List String)
  | [] => some []
  | v :: rest =>
    match stringifyJson v, stringifyJsonList rest with
    | some s, some ss => some (s :: ss)
    | _, _ => none

/-- Serialized `"key":value` members of an object, failing if any value
fails. -/
def stringifyJsonFields : List (String × JVal) → Option (List String)
  | [] => some []
  | (k, v) :: rest =>
    match stringifyJson v, stringifyJsonFields rest with
    | some s, some ss => some ((quoteJsonString k ++ ":" ++ s) :: ss)
    | _, _ => none

end

/-- `clone` from `diffFlatten.js`:
`try { return JSON.parse(JSON.stringify(v)); } catch { return v; }`.
In this value semantics `JSON.parse` applied to the text produced by
`JSON.stringify` on a finite JSON tree rebuilds a structurally equal tree
(the fresh deep copy the code wants), so the success branch returns a value
equal to `v`; when `JSON.stringify` throws (`stringifyJson v = none`, a
cyclic value) the catch returns the original value. -/
def clone (v : JVal) : JVal :=
  match stringifyJson v with
  | some _ => v
  | none => v

/-- `pushChange` from `diffFlatten.js`: builds the row
`{ path: pathArr.join('.'), before: clone(before), after: clone(after) }`.
The mutable `rows.push` is modelled by returning the row; callers
concatenate in emission order. -/
def pushChange (pathArr : List String) (before after : Option JVal) : ChangeRecord :=
  ⟨String.intercalate "." pathArr, before.map clone, after.map clone⟩

/-- Removal of the optional one-character `_` index prefix:
`key.replace(/^_/, '')` from `diffFlatten.js`. -/
def stripUnderscore (s : String) : String :=
  match s.data with
  | '_' :: rest => ⟨rest⟩
  | _ => s

mutual

/-- `walkDelta` from `diffFlatten.js`.  A non-object input (`isObject`
fails: anything but a mapping) contributes nothing.  A mapping whose `_t`
key holds exactly the string `'a'` is an array delta and is walked by
`walkDeltaArrayKeys`; any other mapping is walked by
`walkDeltaObjectKeys`.  The `rows` accumulator of the source is modelled
by returning the emitted rows in order. -/
def walkDelta (delta : JVal) (pathArr : List String) : List ChangeRecord :=
  match delta with
  | .obj fields =>
    if lookupField fields "_t" = some (JVal.str "a") then
      walkDeltaArrayKeys fields pathArr
    else
      walkDeltaObjectKeys fields pathArr
  | _ => []

/-- The array-delta branch of `walkDelta` (the `Object.keys(delta).forEach`
loop): the `_t` marker key is skipped; every other key has its optional
`_` prefix stripped to give the index segment; a 1-element array value is
an addition, a 2-element array a modification, an array of length at least
3 a removal exactly when positions 1 and 2 are the number `0` (and is
dropped otherwise), and a nested mapping recurses. -/
def walkDeltaArrayKeys (fields : List (String × JVal)) (pathArr : List String) :
    List ChangeRecord :=
  match fields with
  | [] => []
  | (key, entry) :: rest =>
    (if key = "_t" then [] else
      match entry with
      | .arr es =>
        match es with
        | [a] => [pushChange (pathArr ++ [stripUnderscore key]) none (some a)]
        | [b, a] => [pushChange (pathArr ++ [stripUnderscore key]) (some b) (some a)]
        | b :: s1 :: s2 :: _ =>
          if s1 = JVal.num 0 ∧ s2 = JVal.num 0 then
            [pushChange (pathArr ++ [stripUnderscore key]) (some b) none]
          else []
        | [] => []
      | .obj fs => walkDelta (JVal.obj fs) (pathArr ++ [stripUnderscore key])
      | _ => []) ++ walkDeltaArrayKeys rest pathArr

/-- The object-delta branch of `walkDelta` (the `for ... of Object.keys`
loop): the `_t` key is skipped; a 2-element array value is a modification,
a 1-element array an addition, an array of length at least 3 a removal
when positions 1 and 2 are the number `0` and otherwise falls back to a
modification built from elements 0 and 1; a nested mapping recurses. -/
def walkDeltaObjectKeys (fields : List (String × JVal)) (pathArr : List String) :
    List ChangeRecord :=
  match fields with
  | [] => []
  | (key, val) :: rest =>
    (if key = "_t" then [] else
      match val with
      | .arr es =>
        match es with
        | [b, a] => [pushChange (pathArr ++ [key]) (some b) (some a)]
        | [a] => [pushChange (pathArr ++ [key]) none (some a)]
        | b :: s1 :: s2 :: _ =>
          if s1 = JVal.num 0 ∧ s2 = JVal.num 0 then
            [pushChange (pathArr ++ [key]) (some b) none]
          else
            [pushChange (pathArr ++ [key]) (some b) (some s1)]
        | [] => []
      | .obj fs => walkDelta (JVal.obj fs) (pathArr ++ [key])
      | _ => []) ++ walkDeltaObjectKeys rest pathArr

end

/-- `flattenJsonDiff` from `diffFlatten.js`: walks `delta || {}` from the
empty path.  The argument is `Option JVal` so that an absent (`undefined`)
delta is representable; any falsy delta is replaced by the empty object
exactly as `delta || {}` does. -/
def flattenJsonDiff (delta : Option JVal) : List ChangeRecord :=
  walkDelta
    (match delta with
     | none => JVal.obj []
     | some v => if jsFalsy v then JVal.obj [] else v)
    []

mutual

/-- The inner `walk` of `flattenDelta` in the PDF generator
(`pdfGenerator.js`): same shape dispatch as `walkDelta` — non-objects
contribute nothing, `_t === 'a'` selects the array branch. -/
def pdfWalk (d : JVal) (path : List String) : List ChangeRecord :=
  match d with
  | .obj fields =>
    if lookupField fields "_t" = some (JVal.str "a") then
      pdfWalkArrayKeys fields path
    else
      pdfWalkObjectKeys fields path
  | _ => []

/-- Array branch of the PDF generator's `walk`: identical to
`walkDeltaArrayKeys` except that no `clone` is applied to the stored
values (the rows are pushed with the raw `entry` elements). -/
def pdfWalkArrayKeys (fields : List (String × JVal)) (path : List String) :
    List ChangeRecord :=
  match fields with
  | [] => []
  | (k, entry) :: rest =>
    (if k = "_t" then [] else
      match entry with
      | .arr es =>
        match es with
        | [a] => [⟨String.intercalate "." (path ++ [stripUnderscore k]), none, some a⟩]
        | [b, a] => [⟨String.intercalate "." (path ++ [stripUnderscore k]), some b, some a⟩]
        | b :: s1 :: s2 :: _ =>
          if s1 = JVal.num 0 ∧ s2 = JVal.num 0 then
            [⟨String.intercalate "." (path ++ [stripUnderscore k]), some b, none⟩]
          else []
        | [] => []
      | .obj fs => pdfWalk (JVal.obj fs) (path ++ [stripUnderscore k])
      | _ => []) ++ pdfWalkArrayKeys rest path

/-- Object branch of the PDF generator's `walk`: unlike
`walkDeltaObjectKeys`, an array of length at least 3 whose positions 1
and 2 are not both the number `0` produces no row (there is no fallback
modification in this re-implementation). -/
def pdfWalkObjectKeys (fields : List (String × JVal)) (path : List String) :
    List ChangeRecord :=
  match fields with
  | [] => []
  | (key, val) :: rest =>
    (if key = "_t" then [] else
      match val with
      | .arr es =>
        match es with
        | [b, a] => [⟨String.intercalate "." (path ++ [key]), some b, some a⟩]
        | [a] => [⟨String.intercalate "." (path ++ [key]), none, some a⟩]
        | b :: s1 :: s2 :: _ =>
          if s1 = JVal.num 0 ∧ s2 = JVal.num 0 then
            [⟨String.intercalate "." (path ++ [key]), some b, none⟩]
          else []
        | [] => []
      | .obj fs => pdfWalk (JVal.obj fs) (path ++ [key])
      | _ => []) ++ pdfWalkObjectKeys rest path

end

/-- `flattenDelta` from the PDF generator: `walk(delta || {}, [])`. -/
def flattenDelta (delta : Option JVal) : List ChangeRecord :=
  pdfWalk
    (match delta with
     | none => JVal.obj []
     | some v => if jsFalsy v then JVal.obj [] else v)
    []

mutual

/-- Predicate (used to state the corrected refinement claim): the delta
contains no array of length at least 3, in object-delta key position,
whose positions 1 and 2 are not both the number `0` — i.e. no node that
triggers `walkDeltaObjectKeys`' fallback-modification branch. -/
def noObjFallback : JVal → Bool
  | .obj fields =>
    if lookupField fields "_t" = some (JVal.str "a") then
      noObjFallbackArrayKeys fields
    else
      noObjFallbackObjectKeys fields
  | _ => true

/-- Array-branch part of `noObjFallback`: only nested mappings need to be
checked (array-context tuples never fall back). -/
def noObjFallbackArrayKeys : List (String × JVal) → Bool
  | [] => true
  | (key, entry) :: rest =>
    (if key = "_t" then true else
      match entry with
      | .obj fs => noObjFallback (JVal.obj fs)
      | _ => true) && noObjFallbackArrayKeys rest

/-- Object-branch part of `noObjFallback`: every array value of length at
least 3 must carry the removal sentinel; nested mappings recurse. -/
def noObjFallbackObjectKeys : List (String × JVal) → Bool
  | [] => true
  | (key, val) :: rest =>
    (if key = "_t" then true else
      match val with
      | .arr es =>
        match es with
        | _ :: s1 :: s2 :: _ => decide (s1 = JVal.num 0 ∧ s2 = JVal.num 0)
        | _ => true
      | .obj fs => noObjFallback (JVal.obj fs)
      | _ => true) && noObjFallbackObjectKeys rest

end

/-- Reference of a footnote to its column: the column name when the
caller supplied a truthy one (`colName || colIdx + 1`), otherwise the
1-based column index. -/
inductive ColRef where
  | byName (s : String)
  | byIndex (n : Nat)
deriving Repr, DecidableEq

/-- A footnote `{ table, row, col, full }` recorded by the truncating
renderer; `row` is 1-based. -/
structure FootnoteEntry where
  table : String
  row : Nat
  col : ColRef
  full : String
deriving Repr, DecidableEq

/-- `safeCell` from the PDF generator: `null`/`undefined` render as the
empty string, strings pass through unchanged, anything else is
`JSON.stringify`ed; if that throws (cyclic value), `String(v)` is used —
modelled by the text it produces for a plain cyclic object (no claim
depends on this branch). -/
def safeCell : Option JVal → String
  | none => ""
  | some .null => ""
  | some (.str s) => s
  | some v =>
    match stringifyJson v with
    | some s => s
    | none => "[object Object]"

/-- Conversion of one hexadecimal digit, for `\uXXXX` escapes in
`JSON.parse`. -/
def hexDigitVal (c : Char) : Option Nat :=
  if '0' ≤ c ∧ c ≤ '9' then some (c.toNat - 48)
  else if 'a' ≤ c ∧ c ≤ 'f' then some (c.toNat - 87)
  else if 'A' ≤ c ∧ c ≤ 'F' then some (c.toNat - 55)
  else none

/-- `JSON.parse` restricted to the tail of a string literal: the input is
everything after the opening quote, and the result is the decoded content
provided the closing quote is the final character (callers — `dequote` —
only parse texts that end in a quote, so any character after a closing
quote makes `JSON.parse` throw: trailing data would include that final
quote).  Invalid escapes and raw control characters also fail, as in
`JSON.parse`. -/
def unescapeJsonChars : List Char → Option (List Char)
  | [] => none
  | '"' :: rest => if rest.isEmpty then some [] else none
  | '\\' :: rest =>
    match rest with
    | '"' :: more => (unescapeJsonChars more).map (fun cs => '"' :: cs)
    | '\\' :: more => (unescapeJsonChars more).map (fun cs => '\\' :: cs)
    | '/' :: more => (unescapeJsonChars more).map (fun cs => '/' :: cs)
    | 'b' :: more => (unescapeJsonChars more).map (fun cs => '\x08' :: cs)
    | 'f' :: more => (unescapeJsonChars more).map (fun cs => '\x0c' :: cs)
    | 'n' :: more => (unescapeJsonChars more).map (fun cs => '\x0a' :: cs)
    | 'r' :: more => (unescapeJsonChars more).map (fun cs => '\x0d' :: cs)
    | 't' :: more => (unescapeJsonChars more).map (fun cs => '\x09' :: cs)
    | 'u' :: h1 :: h2 :: h3 :: h4 :: more =>
      match hexDigitVal h1, hexDigitVal h2, hexDigitVal h3, hexDigitVal h4 with
      | some a, some b, some c, some d =>
        (unescapeJsonChars more).map
          (fun cs => Char.ofNat (a * 4096 + b * 256 + c * 16 + d) :: cs)
      | _, _, _, _ => none
    | _ => none
  | c :: rest =>
    if c.toNat < 32 then none else (unescapeJsonChars rest).map (fun cs => c :: cs)

/-- `dequote` from the PDF generator: a string of length at least 2 that
starts and ends with a double quote has one layer of quoting removed —
via `JSON.parse` when the whole text is a valid string literal, else via
`str.slice(1, -1)`.  Any other string passes through (the source's
`typeof` guard is vacuous here since the input is a string). -/
def dequote (s : String) : String :=
  if 2 ≤ s.length ∧ s.data.head? = some '"' ∧ s.data.getLast? = some '"' then
    match s.data with
    | _ :: rest =>
      match unescapeJsonChars rest with
      | some cs => ⟨cs⟩
      | none => ⟨rest.dropLast⟩
    | [] => s
  else s

/-- The literal appended by `safeCellTruncated`: the bytes in the source
are the UTF-8 encoding of the three characters U+00E2 U+20AC U+00A6 (a
double-encoded ellipsis), so the JavaScript string literal has length 3. -/
def ellipsisMarker : String := "â€¦"

/-- `safeCellTruncated` from the PDF generator: stringify and dequote the
cell value; if the display text is longer than `maxLen`, return the first
`maxLen - 1` characters followed by `ellipsisMarker` and record one
footnote carrying the untruncated text, the table name (`'Table'` when
falsy), the 1-based row, and the column name or 1-based index; otherwise
return the text with no footnote.  The source's `footnotes.push` is
modelled by returning the extended list.  Modelled for `maxLen ≥ 1` (every
call site uses 140). -/
def safeCellTruncated (v : Option JVal) (footnotes : List FootnoteEntry)
    (maxLen : Nat) (tableName : String) (rowIdx colIdx : Nat) (colName : String) :
    String × List FootnoteEntry :=
  let text := dequote (safeCell v)
  if maxLen < text.length then
    (text.take (maxLen - 1) ++ ellipsisMarker,
     footnotes ++
       [{ table := if tableName = "" then "Table" else tableName,
          row := rowIdx + 1,
          col := if colName = "" then ColRef.byIndex (colIdx + 1) else ColRef.byName colName,
          full := text }])
  else (text, footnotes)

/-- A built table `{ name, columns, rows }`; a `none` cell models the
JavaScript `undefined` produced by `JSON.stringify(undefined)`. -/
structure Table where
  name : String
  columns : List String
  rows : List (List (Option String))
deriving Repr, DecidableEq

/-- `JSON.stringify` as used on a row cell: `undefined` stays `undefined`
(`none`); a serializable value yields its JSON text.  (A cyclic value
would make the route handler throw; it also yields `none` here, and no
claim exercises that case.) -/
def stringifyCell : Option JVal → Option String
  | none => none
  | some v => stringifyJson v

/-- `byFile.has(file)` on the insertion-ordered map modelled as an
association list. -/
def mapHas (m : List (String × List ChangeRecord)) (k : String) : Bool :=
  m.any (fun e => e.1 = k)

/-- `byFile.get(file).push(r)`: append `r` to the entry holding key `k`
(keys are unique by construction, matching `Map` semantics). -/
def mapPush (m : List (String × List ChangeRecord)) (k : String) (r : ChangeRecord) :
    List (String × List ChangeRecord) :=
  m.map (fun e => if e.1 = k then (e.1, e.2 ++ [r]) else e)

/-- The inner `for (const r of flat)` loop of `/api/tables/fromReport`:
for each record, create the file's entry if absent
(`byFile.set(file, [])`), then push the record. -/
def pushFileRecords (m : List (String × List ChangeRecord)) (file : String) :
    List ChangeRecord → List (String × List ChangeRecord)
  | [] => m
  | r :: rs =>
    pushFileRecords (mapPush (if mapHas m file then m else m ++ [(file, [])]) file r)
      file rs

/-- The grouping loop of `/api/tables/fromReport`: flatten each item's
diff (`it.diff || {}`) and push its records under the item's file. -/
def buildByFile (items : List (String × Option JVal)) :
    List (String × List ChangeRecord) :=
  items.foldl (fun m it => pushFileRecords m it.1 (flattenJsonDiff it.2)) []

/-- One output row of the per-file table:
`[r.path, JSON.stringify(r.before), JSON.stringify(r.after)]`. -/
def reportRow (r : ChangeRecord) : List (Option String) :=
  [some r.path, stringifyCell r.before, stringifyCell r.after]

/-- `/api/tables/fromReport` (per-file full mode): one table per `byFile`
entry, in insertion order, named after the file, with the fixed columns
and one row per record. -/
def buildTablesFromReport (items : List (String × Option JVal)) : List Table :=
  (buildByFile items).map
    (fun e => ⟨e.1, ["Path", "Old Value", "New Value"], e.2.map reportRow⟩)

/-- Specification helper (from the claim's words): the distinct elements
of a list in order of first appearance. -/
def firstSeen (l : List String) : List String :=
  l.foldl (fun acc f => if f ∈ acc then acc else acc ++ [f]) []

/-- Specification helper (from the claim's words): the distinct file
identifiers that contribute at least one flattened record, in first
appearance order. -/
def contributingFiles (items : List (String × Option JVal)) : List String :=
  firstSeen ((items.filter (fun it => !(flattenJsonDiff it.2).isEmpty)).map Prod.fst)

/-- Specification helper (from the claim's words): all flattened records
of the items carrying file identifier `f`, in input order. -/
def fileRecords (items : List (String × Option JVal)) (f : String) :
    List ChangeRecord :=
  ((items.filter (fun it => it.1 = f)).map (fun it => flattenJsonDiff it.2)).flatten

/-- Specification-side table builder, following the claim's words: one
table per contributing file in first-seen order, holding exactly that
file's records. -/
def tablesSpec (items : List (String × Option JVal)) : List Table :=
  (contributingFiles items).map
    (fun f => ⟨f, ["Path", "Old Value", "New Value"], (fileRecords items f).map reportRow⟩)

/-- Added-only mode of `/api/template/upload` (case 2): flatten the
delta, keep the records whose `before` is `undefined`, and build the
`Added` table with columns `['Path', 'New Value']` and rows
`[r.path, JSON.stringify(r.after)]`. -/
def addedOnlyTable (json : JVal) : Table :=
  let flat := flattenJsonDiff (some json)
  let additions := flat.filter (fun r => r.before.isNone)
  ⟨"Added", ["Path", "New Value"],
    additions.map (fun r => [some r.path, stringifyCell r.after])⟩

/-- Proof-side helper: append `rs` to every entry of the map holding key
`k` (with unique keys, the combined effect of repeated `mapPush`es). -/
def mapPushAll (m : List (String × List ChangeRecord)) (k : String)
    (rs : List ChangeRecord) : List (String × List ChangeRecord) :=
  m.map (fun e => if e.1 = k then (e.1, e.2 ++ rs) else e)

/-- The serialization round trip changes nothing in the value semantics:
on serializable values it rebuilds an equal tree, on unserializable ones
the catch returns the original. -/
theorem clone_id (v : JVal) : clone v = v := by
  unfold clone
  cases stringifyJson v <;> rfl

/-- `pushChange` stores values structurally equal to its arguments. -/
theorem pushChange_id (p : List String) (b a : Option JVal) :
    pushChange p b a = ⟨String.intercalate "." p, b, a⟩ := by
  unfold pushChange
  cases b <;> cases a <;> simp [clone_id]

/-- Joining a one-segment path is the segment itself. -/
theorem intercalate_singleton (sep x : String) : String.intercalate sep [x] = x := rfl

/-- C1: in an object-delta node, a key mapped to a 3-element array whose
positions 1 and 2 are both the number `0` flattens to a removal record
(`before` = element 0, `after` absent), and a key mapped to an array of
length at least 3 whose positions 1 and 2 are not both `0` flattens to a
modification record built from elements 0 and 1; in particular
`{x: [9,0,0]}` yields `{path:"x", before:9, after:absent}` and
`{x: [9,1,2]}` yields `{path:"x", before:9, after:1}`. -/
theorem flatten_objectTuple_removal_fallback :
    (∀ (k : String) (v0 v1 v2 : JVal) (rest : List JVal), k ≠ "_t" →
      flattenJsonDiff (some (JVal.obj [(k, JVal.arr [v0, JVal.num 0, JVal.num 0])])) =
        [⟨k, some v0, none⟩] ∧
      (¬(v1 = JVal.num 0 ∧ v2 = JVal.num 0) →
        flattenJsonDiff (some (JVal.obj [(k, JVal.arr (v0 :: v1 :: v2 :: rest))])) =
          [⟨k, some v0, some v1⟩])) ∧
    flattenJsonDiff (some (JVal.obj [("x", JVal.arr [JVal.num 9, JVal.num 0, JVal.num 0])])) =
      [⟨"x", some (JVal.num 9), none⟩] ∧
    flattenJsonDiff (some (JVal.obj [("x", JVal.arr [JVal.num 9, JVal.num 1, JVal.num 2])])) =
      [⟨"x", some (JVal.num 9), some (JVal.num 1)⟩] := by
  refine ⟨fun k v0 v1 v2 rest hk => ⟨?_, fun hne => ?_⟩, ?_, ?_⟩
  · simp [flattenJsonDiff, jsFalsy, walkDelta, walkDeltaObjectKeys, lookupField,
      pushChange_id, intercalate_singleton, hk]
  · simp [flattenJsonDiff, jsFalsy, walkDelta, walkDeltaObjectKeys, lookupField,
      pushChange_id, intercalate_singleton, hk]
    exact fun h1 h2 => absurd ⟨h1, h2⟩ hne
  · simp [flattenJsonDiff, jsFalsy, walkDelta, walkDeltaObjectKeys, lookupField,
      pushChange_id, intercalate_singleton]
  · simp [flattenJsonDiff, jsFalsy, walkDelta, walkDeltaObjectKeys, lookupField,
      pushChange_id, intercalate_singleton]

/-- Witness for C1: the degraded fallback branch at a fully concrete
input. -/
theorem flatten_objectTuple_removal_fallback_witness :
    flattenJsonDiff
        (some (JVal.obj [("y", JVal.arr [JVal.str "q", JVal.num 3, JVal.bool true])])) =
      [⟨"y", some (JVal.str "q"), some (JVal.num 3)⟩] :=
  (flatten_objectTuple_removal_fallback.1 "y" (JVal.str "q") (JVal.num 3) (JVal.bool true)
      [] (by decide)).2 (by simp)

/-- Counterexample to C2: two mapping nodes that both contain the
reserved marker key `_t` — one with value `'a'`, one with value `0` —
flatten differently: under `'a'` the array branch drops the non-sentinel
3-tuple, while under `0` the object branch emits its fallback
modification.  So the branch taken is not determined by the presence of
the marker key alone. -/
theorem arrayMarker_value_matters :
    flattenJsonDiff
        (some (JVal.obj [("_t", JVal.str "a"),
          ("x", JVal.arr [JVal.num 9, JVal.num 1, JVal.num 2])])) = [] ∧
    flattenJsonDiff
        (some (JVal.obj [("_t", JVal.num 0),
          ("x", JVal.arr [JVal.num 9, JVal.num 1, JVal.num 2])])) =
      [⟨"x", some (JVal.num 9), some (JVal.num 1)⟩] := by
  constructor
  · simp [flattenJsonDiff, jsFalsy, walkDelta, walkDeltaArrayKeys, lookupField,
      stripUnderscore]
  · simp [flattenJsonDiff, jsFalsy, walkDelta, walkDeltaObjectKeys, lookupField,
      pushChange_id, intercalate_singleton]

/-- C2 (amended): the decoder's array-vs-object dispatch for a
mapping-shaped node is determined by whether the marker key `_t` maps to
exactly the string `'a'`: a node whose marker value is anything else is
treated as a generic object delta (with the marker key skipped), so the
output is invariant under exchanging one non-`'a'` marker value for
another. -/
theorem arrayMarker_dispatch (fields : List (String × JVal)) (path : List String)
    (v w : JVal) (hv : v ≠ JVal.str "a") (hw : w ≠ JVal.str "a") :
    walkDelta (JVal.obj (("_t", v) :: fields)) path =
      walkDelta (JVal.obj (("_t", w) :: fields)) path := by
  simp [walkDelta, lookupField, walkDeltaObjectKeys, hv, hw]

/-- Witness for C2's amended theorem: marker values `0` and `true` give
the same (object-branch) output on a concrete node. -/
theorem arrayMarker_dispatch_witness :
    walkDelta (JVal.obj [("_t", JVal.num 0),
        ("x", JVal.arr [JVal.num 9, JVal.num 1, JVal.num 2])]) [] =
      walkDelta (JVal.obj [("_t", JVal.bool true),
        ("x", JVal.arr [JVal.num 9, JVal.num 1, JVal.num 2])]) [] :=
  arrayMarker_dispatch [("x", JVal.arr [JVal.num 9, JVal.num 1, JVal.num 2])] []
    (JVal.num 0) (JVal.bool true) (by simp) (by simp)

/-- Stripping the index prefix from a prefixed key removes exactly the
one leading underscore. -/
theorem stripUnderscore_prefixed (k : String) : stripUnderscore ("_" ++ k) = k := rfl

/-- A key that does not begin with an underscore is left unchanged by the
prefix strip. -/
theorem stripUnderscore_of_head_ne (k : String) (h : k.data.head? ≠ some '_') :
    stripUnderscore k = k := by
  unfold stripUnderscore
  split
  · rename_i rest heq
    exact absurd (by rw [heq]; rfl) h
  · rfl

/-- A prefixed index key is never the marker key, provided the bare key
is not `t`. -/
theorem prefixed_ne_marker (k : String) (h : k ≠ "t") : ("_" ++ k) ≠ "_t" := by
  intro heq
  apply h
  have hd : ('_' :: k.data) = ['_', 't'] := congrArg String.data heq
  have hk : k.data = ['t'] := by injection hd
  exact congrArg String.mk hk

/-- A mapping node headed by the marker binding `_t: 'a'` is decoded by
the array branch, which skips the marker key itself. -/
theorem walkDelta_marker (rest : List (String × JVal)) (p : List String) :
    walkDelta (JVal.obj (("_t", JVal.str "a") :: rest)) p = walkDeltaArrayKeys rest p := by
  simp [walkDelta, lookupField, walkDeltaArrayKeys]

/-- Flattening a one-key object whose value is a nested mapping recurses
into the nested mapping under that key. -/
theorem flatten_singleton_obj (key : String) (infields : List (String × JVal))
    (hkey : key ≠ "_t") :
    flattenJsonDiff (some (JVal.obj [(key, JVal.obj infields)])) =
      walkDelta (JVal.obj infields) [key] := by
  simp [flattenJsonDiff, jsFalsy, walkDelta, walkDeltaObjectKeys, lookupField, hkey]

/-- Two singleton array-branch key lists whose keys are not the marker
and strip to the same index segment decode identically. -/
theorem walkDeltaArrayKeys_congr_key (k1 k2 : String) (e : JVal) (p : List String)
    (h1 : k1 ≠ "_t") (h2 : k2 ≠ "_t") (hs : stripUnderscore k1 = stripUnderscore k2) :
    walkDeltaArrayKeys [(k1, e)] p = walkDeltaArrayKeys [(k2, e)] p := by
  rw [walkDeltaArrayKeys.eq_def, walkDeltaArrayKeys.eq_def]
  dsimp only
  rw [if_neg h1, if_neg h2, hs]

/-- C3: flattening the array-marker delta `{items: {_t:"a", "1":[7]}}`
yields exactly the record `{path:"items.1", before:absent, after:7}`; and
for any index key that does not itself begin with an underscore (and is
not `t`), attaching the one-character `_` prefix leaves the flattened
output unchanged — the prefix is stripped, so the emitted path equals the
unprefixed form's. -/
theorem flatten_arrayMarker_strip :
    flattenJsonDiff
        (some (JVal.obj [("items",
          JVal.obj [("_t", JVal.str "a"), ("1", JVal.arr [JVal.num 7])])])) =
      [⟨"items.1", none, some (JVal.num 7)⟩] ∧
    (∀ (k : String) (e : JVal), k.data.head? ≠ some '_' → k ≠ "t" →
      flattenJsonDiff
          (some (JVal.obj [("items", JVal.obj [("_t", JVal.str "a"), ("_" ++ k, e)])])) =
        flattenJsonDiff
          (some (JVal.obj [("items", JVal.obj [("_t", JVal.str "a"), (k, e)])]))) := by
  constructor
  · simp [flattenJsonDiff, jsFalsy, walkDelta, walkDeltaObjectKeys, walkDeltaArrayKeys,
      lookupField, stripUnderscore, pushChange_id]
    rfl
  · intro k e hh ht
    have h1 : ("_" ++ k) ≠ "_t" := prefixed_ne_marker k ht
    have h2 : k ≠ "_t" := by
      intro heq
      exact hh (by rw [heq]; rfl)
    rw [flatten_singleton_obj "items" _ (by decide), flatten_singleton_obj "items" _ (by decide),
      walkDelta_marker, walkDelta_marker]
    exact walkDeltaArrayKeys_congr_key ("_" ++ k) k e ["items"] h1 h2
      (by rw [stripUnderscore_prefixed, stripUnderscore_of_head_ne k hh])

/-- Witness for C3: key `_1` with an added element flattens exactly as
key `1` does. -/
theorem flatten_arrayMarker_strip_witness :
    flattenJsonDiff
        (some (JVal.obj [("items",
          JVal.obj [("_t", JVal.str "a"), ("_" ++ "1", JVal.arr [JVal.num 7])])])) =
      flattenJsonDiff
        (some (JVal.obj [("items",
          JVal.obj [("_t", JVal.str "a"), ("1", JVal.arr [JVal.num 7])])])) :=
  flatten_arrayMarker_strip.2 "1" (JVal.arr [JVal.num 7]) (by decide) (by decide)

/-- Counterexample to C4: on the delta `{x: [9,1,2]}` the core flattener
emits its fallback modification record while the PDF generator's
re-implementation emits nothing, so the two embeddings of the
diff-flattening logic are not equivalent. -/
theorem flatten_vs_pdf_counterexample :
    flattenJsonDiff (some (JVal.obj [("x", JVal.arr [JVal.num 9, JVal.num 1, JVal.num 2])])) =
      [⟨"x", some (JVal.num 9), some (JVal.num 1)⟩] ∧
    flattenDelta (some (JVal.obj [("x", JVal.arr [JVal.num 9, JVal.num 1, JVal.num 2])])) =
      [] := by
  constructor
  · simp [flattenJsonDiff, jsFalsy, walkDelta, walkDeltaObjectKeys, lookupField,
      pushChange_id, intercalate_singleton]
  · simp [flattenDelta, jsFalsy, pdfWalk, pdfWalkObjectKeys, lookupField]

/-- Array-branch agreement of the two walkers, parameterized by the
inductive hypothesis for smaller deltas. -/
theorem arrKeysAgree (n : Nat)
    (ih : ∀ d : JVal, sizeOf d ≤ n → ∀ p, noObjFallback d = true →
      walkDelta d p = pdfWalk d p) :
    ∀ fields : List (String × JVal), sizeOf fields ≤ n →
      ∀ p, noObjFallbackArrayKeys fields = true →
        walkDeltaArrayKeys fields p = pdfWalkArrayKeys fields p := by
  intro fields
  induction fields with
  | nil =>
    intro _ p _
    simp [walkDeltaArrayKeys, pdfWalkArrayKeys]
  | cons head rest ihr =>
    obtain ⟨key, entry⟩ := head
    intro hsz p hnf
    have hszrest : sizeOf rest ≤ n := by
      simp only [List.cons.sizeOf_spec, Prod.mk.sizeOf_spec] at hsz
      omega
    have hszentry : sizeOf entry ≤ n := by
      simp only [List.cons.sizeOf_spec, Prod.mk.sizeOf_spec] at hsz
      omega
    rw [noObjFallbackArrayKeys.eq_def] at hnf
    dsimp only at hnf
    rw [Bool.and_eq_true] at hnf
    obtain ⟨hhead, htail⟩ := hnf
    rw [walkDeltaArrayKeys.eq_def, pdfWalkArrayKeys.eq_def]
    dsimp only
    rw [ihr hszrest p htail]
    congr 1
    by_cases hk : key = "_t"
    · simp only [if_pos hk]
    · simp only [if_neg hk] at hhead ⊢
      cases entry with
      | arr es =>
        rcases es with _ | ⟨a, _ | ⟨b, _ | ⟨c, tl⟩⟩⟩
        · rfl
        · simp [pushChange_id]
        · simp [pushChange_id]
        · dsimp only
          split <;> simp [pushChange_id]
      | obj fs =>
        dsimp only at hhead
        exact ih (JVal.obj fs) hszentry (p ++ [stripUnderscore key]) hhead
      | null => rfl
      | bool b => rfl
      | num m => rfl
      | str s => rfl
      | cyclic i => rfl

/-- Object-branch agreement of the two walkers under the no-fallback
hypothesis, parameterized by the inductive hypothesis for smaller
deltas. -/
theorem objKeysAgree (n : Nat)
    (ih : ∀ d : JVal, sizeOf d ≤ n → ∀ p, noObjFallback d = true →
      walkDelta d p = pdfWalk d p) :
    ∀ fields : List (String × JVal), sizeOf fields ≤ n →
      ∀ p, noObjFallbackObjectKeys fields = true →
        walkDeltaObjectKeys fields p = pdfWalkObjectKeys fields p := by
  intro fields
  induction fields with
  | nil =>
    intro _ p _
    simp [walkDeltaObjectKeys, pdfWalkObjectKeys]
  | cons head rest ihr =>
    obtain ⟨key, val⟩ := head
    intro hsz p hnf
    have hszrest : sizeOf rest ≤ n := by
      simp only [List.cons.sizeOf_spec, Prod.mk.sizeOf_spec] at hsz
      omega
    have hszval : sizeOf val ≤ n := by
      simp only [List.cons.sizeOf_spec, Prod.mk.sizeOf_spec] at hsz
      omega
    rw [noObjFallbackObjectKeys.eq_def] at hnf
    dsimp only at hnf
    rw [Bool.and_eq_true] at hnf
    obtain ⟨hhead, htail⟩ := hnf
    rw [walkDeltaObjectKeys.eq_def, pdfWalkObjectKeys.eq_def]
    dsimp only
    rw [ihr hszrest p htail]
    congr 1
    by_cases hk : key = "_t"
    · simp only [if_pos hk]
    · simp only [if_neg hk] at hhead ⊢
      cases val with
      | arr es =>
        rcases es with _ | ⟨a, _ | ⟨b, _ | ⟨c, tl⟩⟩⟩
        · rfl
        · simp [pushChange_id]
        · simp [pushChange_id]
        · dsimp only at hhead ⊢
          have hsent : b = JVal.num 0 ∧ c = JVal.num 0 := of_decide_eq_true hhead
          simp only [if_pos hsent, pushChange_id]
      | obj fs =>
        dsimp only at hhead
        exact ih (JVal.obj fs) hszval (p ++ [key]) hhead
      | null => rfl
      | bool b => rfl
      | num m => rfl
      | str s => rfl
      | cyclic i => rfl

/-- The two delta walkers agree on every delta without object-context
fallback tuples (strong induction on the size of the delta). -/
theorem walkAgree : ∀ (n : Nat) (d : JVal), sizeOf d ≤ n →
    ∀ p, noObjFallback d = true → walkDelta d p = pdfWalk d p := by
  intro n
  induction n with
  | zero =>
    intro d hd _ _
    exfalso
    cases d <;> simp at hd
  | succ n ih =>
    intro d hd p hnf
    cases d with
    | obj fields =>
      have hfs : sizeOf fields ≤ n := by
        simp only [JVal.obj.sizeOf_spec] at hd
        omega
      rw [walkDelta.eq_def, pdfWalk.eq_def]
      dsimp only
      rw [noObjFallback.eq_def] at hnf
      dsimp only at hnf
      split
      · rename_i hmark
        rw [if_pos hmark] at hnf
        exact arrKeysAgree n ih fields hfs p hnf
      · rename_i hmark
        rw [if_neg hmark] at hnf
        exact objKeysAgree n ih fields hfs p hnf
    | null => rfl
    | bool b => rfl
    | num m => rfl
    | str s => rfl
    | arr xs => rfl
    | cyclic i => rfl

/-- C4 (amended): the core flattener `flattenJsonDiff` and the PDF
generator's `flattenDelta` produce the same record list on every delta
containing no object-context array of length at least 3 whose positions 1
and 2 are not both `0` (the only divergence is `flattenJsonDiff`'s
fallback modification on such tuples, which `flattenDelta` drops); they
also agree on the absent delta. -/
theorem flatten_agrees_pdf_without_fallback :
    (∀ d : JVal, noObjFallback d = true →
      flattenJsonDiff (some d) = flattenDelta (some d)) ∧
    flattenJsonDiff none = flattenDelta none := by
  constructor
  · intro d hnf
    unfold flattenJsonDiff flattenDelta
    by_cases hf : jsFalsy d = true
    · simp only [if_pos hf]
      simp [walkDelta, pdfWalk, walkDeltaObjectKeys, pdfWalkObjectKeys, lookupField]
    · simp only [if_neg hf]
      exact walkAgree (sizeOf d) d le_rfl [] hnf
  · simp [flattenJsonDiff, flattenDelta, walkDelta, pdfWalk, walkDeltaObjectKeys,
      pdfWalkObjectKeys, lookupField]

/-- Witness for C4's amended theorem: agreement on a concrete nested
delta exercising both branches. -/
theorem flatten_agrees_pdf_without_fallback_witness :
    flattenJsonDiff
        (some (JVal.obj [("a", JVal.obj [("b", JVal.arr [JVal.num 1, JVal.num 2])]),
          ("items", JVal.obj [("_t", JVal.str "a"), ("0", JVal.arr [JVal.num 5])])])) =
      flattenDelta
        (some (JVal.obj [("a", JVal.obj [("b", JVal.arr [JVal.num 1, JVal.num 2])]),
          ("items", JVal.obj [("_t", JVal.str "a"), ("0", JVal.arr [JVal.num 5])])])) :=
  flatten_agrees_pdf_without_fallback.1 _
    (by simp [noObjFallback, noObjFallbackObjectKeys, noObjFallbackArrayKeys, lookupField])

set_option maxRecDepth 40000 in
/-- C5 (code bug): at a 150-character cell value with `maxLen = 140` the
truncating renderer returns a display string of 142 characters — the
first 139 characters followed by the three-character mojibake sequence
`ellipsisMarker` — not the 140 characters (139 + one ellipsis character)
the claim requires; the footnote side of the claim does hold: exactly one
entry is appended, carrying the untruncated text, the 1-based row and the
column name, and a short value passes through unchanged with no
footnote. -/
theorem safeCellTruncated_mojibake :
    (safeCellTruncated (some (JVal.str ⟨List.replicate 150 'a'⟩)) [] 140 "T1" 0 0
        "Path").1.length = 142 ∧
    (safeCellTruncated (some (JVal.str ⟨List.replicate 150 'a'⟩)) [] 140 "T1" 0 0
        "Path").1 = (⟨List.replicate 139 'a'⟩ : String) ++ ellipsisMarker ∧
    (safeCellTruncated (some (JVal.str ⟨List.replicate 150 'a'⟩)) [] 140 "T1" 0 0
        "Path").2 = [⟨"T1", 1, ColRef.byName "Path", ⟨List.replicate 150 'a'⟩⟩] ∧
    safeCellTruncated (some (JVal.str "ok")) [] 140 "T1" 0 0 "Path" = ("ok", []) := by
  refine ⟨?_, ?_, ?_, ?_⟩ <;> decide

/-- C6: every record emitted by `flattenJsonDiff` carries `before`/`after`
values structurally equal to the source delta's values (the serialization
round trip `clone` is the identity in the value semantics); and a value
`JSON.stringify` cannot serialize makes `clone` fall back to the original
value instead of throwing, so flattening a delta holding such a value
succeeds and passes the value through. -/
theorem clone_deepcopy_unserializable :
    (∀ v : JVal, clone v = v) ∧
    (∀ v : JVal, stringifyJson v = none → clone v = v) ∧
    stringifyJson (JVal.cyclic 0) = none ∧
    flattenJsonDiff (some (JVal.obj [("x", JVal.arr [JVal.cyclic 0])])) =
      [⟨"x", none, some (JVal.cyclic 0)⟩] := by
  refine ⟨clone_id, fun v _ => clone_id v, by decide, by decide⟩

/-- Witness for C6: the fallback branch at the unserializable value. -/
theorem clone_deepcopy_unserializable_witness :
    clone (JVal.cyclic 0) = JVal.cyclic 0 :=
  clone_deepcopy_unserializable.2.1 (JVal.cyclic 0) (by decide)

/-- C9: flattening the absent delta and every non-mapping delta (null,
booleans, numbers, strings, arrays) yields the empty record list; no
error path exists (the embedding is total). -/
theorem flatten_of_not_obj (v : JVal) (hobj : ∀ fs, v ≠ JVal.obj fs) :
    flattenJsonDiff (some v) = [] := by
  unfold flattenJsonDiff
  by_cases h : jsFalsy v = true
  · simp [h, walkDelta, walkDeltaObjectKeys, lookupField]
  · simp only [if_neg h]
    cases v with
    | obj fs => exact absurd rfl (hobj fs)
    | null => rfl
    | bool b => rfl
    | num n => rfl
    | str s => rfl
    | arr xs => rfl
    | cyclic i => rfl

theorem flatten_non_mapping :
    flattenJsonDiff none = [] ∧
    flattenJsonDiff (some JVal.null) = [] ∧
    (∀ b, flattenJsonDiff (some (JVal.bool b)) = []) ∧
    (∀ n : Int, flattenJsonDiff (some (JVal.num n)) = []) ∧
    (∀ s, flattenJsonDiff (some (JVal.str s)) = []) ∧
    (∀ xs, flattenJsonDiff (some (JVal.arr xs)) = []) :=
  ⟨by decide, by decide,
   fun b => flatten_of_not_obj _ (fun fs h => JVal.noConfusion h),
   fun n => flatten_of_not_obj _ (fun fs h => JVal.noConfusion h),
   fun s => flatten_of_not_obj _ (fun fs h => JVal.noConfusion h),
   fun xs => flatten_of_not_obj _ (fun fs h => JVal.noConfusion h)⟩

/-- C10: in this embedding flattening and table building are pure
functions of their arguments — the sources use no randomness, clock, or
state shared between invocations on these paths — so two runs on the same
input produce structurally equal results. -/
theorem flatten_tables_deterministic :
    (∀ delta : Option JVal, flattenJsonDiff delta = flattenJsonDiff delta) ∧
    (∀ items : List (String × Option JVal),
      buildTablesFromReport items = buildTablesFromReport items) :=
  ⟨fun _ => rfl, fun _ => rfl⟩

/-- Pushing one record is pushing the singleton batch. -/
theorem mapPush_eq_single (m : List (String × List ChangeRecord)) (k : String)
    (r : ChangeRecord) : mapPush m k r = mapPushAll m k [r] := rfl

/-- Unfolding `mapHas` over a cons. -/
theorem mapHas_cons (e : String × List ChangeRecord) (m : List (String × List ChangeRecord))
    (x : String) : mapHas (e :: m) x = (decide (e.1 = x) || mapHas m x) := rfl

/-- Batch pushes compose by concatenation. -/
theorem mapPushAll_mapPushAll (m : List (String × List ChangeRecord)) (k : String)
    (rs1 rs2 : List ChangeRecord) :
    mapPushAll (mapPushAll m k rs1) k rs2 = mapPushAll m k (rs1 ++ rs2) := by
  unfold mapPushAll
  rw [List.map_map]
  apply List.map_congr_left
  intro e _
  by_cases h : e.1 = k <;> simp [h, Function.comp, List.append_assoc]

/-- Pushing a record never changes which keys the map has. -/
theorem mapHas_mapPush (m : List (String × List ChangeRecord)) (k g : String)
    (r : ChangeRecord) : mapHas (mapPush m k r) g = mapHas m g := by
  induction m with
  | nil => rfl
  | cons e rest ih =>
    rw [show mapPush (e :: rest) k r =
        (if e.1 = k then (e.1, e.2 ++ [r]) else e) :: mapPush rest k r from rfl,
      mapHas_cons, mapHas_cons, ih]
    congr 1
    split <;> rfl

/-- After ensuring the key's entry exists and pushing into it, the map
has the key. -/
theorem mapHas_after_ensure (m : List (String × List ChangeRecord)) (k : String)
    (r : ChangeRecord) :
    mapHas (mapPush (if mapHas m k then m else m ++ [(k, [])]) k r) k = true := by
  rw [mapHas_mapPush]
  by_cases h : mapHas m k = true
  · rw [if_pos h]; exact h
  · rw [if_neg h]
    simp [mapHas]

/-- Characterization of the inner record loop: pushing a non-empty batch
of records equals ensuring the entry exists once and appending the whole
batch. -/
theorem pushFileRecords_eq (k : String) :
    ∀ (rs : List ChangeRecord) (m : List (String × List ChangeRecord)), rs ≠ [] →
      pushFileRecords m k rs = mapPushAll (if mapHas m k then m else m ++ [(k, [])]) k rs := by
  intro rs
  induction rs with
  | nil => intro m h; exact absurd rfl h
  | cons r rs ih =>
    intro m _
    by_cases hrs : rs = []
    · subst hrs
      rw [pushFileRecords, pushFileRecords, mapPush_eq_single]
    · rw [pushFileRecords, ih _ hrs, if_pos (mapHas_after_ensure m k r),
        mapPush_eq_single, mapPushAll_mapPushAll]
      rfl

/-- Membership in the first-seen fold, generalized over the
accumulator. -/
theorem mem_firstSeen_aux (x : String) :
    ∀ (l : List String) (acc : List String),
      (x ∈ l.foldl (fun acc f => if f ∈ acc then acc else acc ++ [f]) acc ↔
        x ∈ acc ∨ x ∈ l) := by
  intro l
  induction l with
  | nil => intro acc; simp
  | cons a l ih =>
    intro acc
    rw [List.foldl_cons, ih]
    by_cases h : a ∈ acc
    · rw [if_pos h]
      simp only [List.mem_cons]
      constructor
      · rintro (hx | hx)
        · exact Or.inl hx
        · exact Or.inr (Or.inr hx)
      · rintro (hx | rfl | hx)
        · exact Or.inl hx
        · exact Or.inl h
        · exact Or.inr hx
    · rw [if_neg h]
      simp only [List.mem_append, List.mem_singleton, List.mem_cons, or_assoc,
        List.not_mem_nil, false_or]

/-- `firstSeen` preserves membership. -/
theorem mem_firstSeen (x : String) (l : List String) : x ∈ firstSeen l ↔ x ∈ l := by
  unfold firstSeen
  rw [mem_firstSeen_aux]
  simp

/-- `firstSeen` over a snoc: a new element is appended, a seen one is
dropped. -/
theorem firstSeen_snoc (l : List String) (x : String) :
    firstSeen (l ++ [x]) = if x ∈ l then firstSeen l else firstSeen l ++ [x] := by
  have hstep : firstSeen (l ++ [x]) =
      (if x ∈ firstSeen l then firstSeen l else firstSeen l ++ [x]) := by
    unfold firstSeen
    rw [List.foldl_append]
    rfl
  rw [hstep]
  by_cases h : x ∈ l
  · rw [if_pos ((mem_firstSeen x l).mpr h), if_pos h]
  · rw [if_neg (fun hh => h ((mem_firstSeen x l).mp hh)), if_neg h]

/-- The records of file `f` over a snoc of the item list. -/
theorem fileRecords_snoc (items : List (String × Option JVal)) (it : String × Option JVal)
    (f : String) :
    fileRecords (items ++ [it]) f =
      fileRecords items f ++ (if it.1 = f then flattenJsonDiff it.2 else []) := by
  unfold fileRecords
  rw [List.filter_append, List.map_append, List.flatten_append]
  congr 1
  by_cases h : it.1 = f <;> simp [h]

/-- The contributing files over a snoc of the item list. -/
theorem contributingFiles_snoc (items : List (String × Option JVal))
    (it : String × Option JVal) :
    contributingFiles (items ++ [it]) =
      if (flattenJsonDiff it.2).isEmpty then contributingFiles items
      else if it.1 ∈ contributingFiles items then contributingFiles items
      else contributingFiles items ++ [it.1] := by
  unfold contributingFiles
  rw [List.filter_append]
  by_cases he : (flattenJsonDiff it.2).isEmpty
  · rw [if_pos he]
    simp [he]
  · rw [if_neg he]
    have hfil : List.filter (fun it => !(flattenJsonDiff it.2).isEmpty) [it] = [it] := by
      simp [he]
    rw [hfil, List.map_append, show List.map Prod.fst [it] = [it.1] from rfl,
      firstSeen_snoc]
    have hmem : (it.1 ∈ (List.filter (fun it => !(flattenJsonDiff it.2).isEmpty) items).map
        Prod.fst) ↔
        it.1 ∈ firstSeen ((List.filter (fun it => !(flattenJsonDiff it.2).isEmpty) items).map
          Prod.fst) := (mem_firstSeen _ _).symm
    by_cases hm : it.1 ∈ firstSeen ((List.filter
        (fun it => !(flattenJsonDiff it.2).isEmpty) items).map Prod.fst)
    · rw [if_pos (hmem.mpr hm), if_pos hm]
    · rw [if_neg (fun hh => hm (hmem.mp hh)), if_neg hm]

/-- A file outside the contributing set owns no records: every item
bearing it flattens to nothing. -/
theorem fileRecords_nil_of_not_contributing (items : List (String × Option JVal))
    (f : String) (h : f ∉ contributingFiles items) : fileRecords items f = [] := by
  unfold fileRecords
  rw [List.flatten_eq_nil_iff]
  intro ys hys
  rw [List.mem_map] at hys
  obtain ⟨it, hit, hflat⟩ := hys
  rw [List.mem_filter] at hit
  obtain ⟨hmemit, hfst⟩ := hit
  by_contra hne
  apply h
  unfold contributingFiles
  rw [mem_firstSeen, List.mem_map]
  refine ⟨it, ?_, by simpa using hfst⟩
  rw [List.mem_filter]
  refine ⟨hmemit, ?_⟩
  rw [hflat]
  cases ys with
  | nil => exact absurd rfl hne
  | cons y ys => rfl

/-- `mapHas` on a map in specification form is membership in the key
list. -/
theorem mapHas_map_spec (cf : List String) (g : String → List ChangeRecord) (x : String) :
    mapHas (cf.map (fun f => (f, g f))) x = true ↔ x ∈ cf := by
  induction cf with
  | nil => simp [mapHas]
  | cons f rest ih =>
    rw [List.map_cons, mapHas_cons, Bool.or_eq_true, ih, List.mem_cons,
      decide_eq_true_eq]
    constructor
    · rintro (h1 | h2)
      · exact Or.inl h1.symm
      · exact Or.inr h2
    · rintro (h1 | h2)
      · exact Or.inl h1.symm
      · exact Or.inr h2

/-- Batch-pushing into a specification-form map updates exactly the
matching key's records. -/
theorem mapPushAll_map_spec (cf : List String) (g : String → List ChangeRecord)
    (x : String) (rs : List ChangeRecord) :
    mapPushAll (cf.map (fun f => (f, g f))) x rs =
      cf.map (fun f => (f, if f = x then g f ++ rs else g f)) := by
  unfold mapPushAll
  rw [List.map_map]
  apply List.map_congr_left
  intro f _
  by_cases h : f = x <;> simp [h, Function.comp]

/-- The `Map`-based grouping loop computes, file by file, exactly the
specification-form map: contributing files in first-seen order, each
paired with all its records in input order. -/
theorem buildByFile_eq_spec (items : List (String × Option JVal)) :
    buildByFile items =
      (contributingFiles items).map (fun f => (f, fileRecords items f)) := by
  induction items using List.reverseRecOn with
  | nil => rfl
  | append_singleton l it ih =>
    have hb : buildByFile (l ++ [it]) =
        pushFileRecords (buildByFile l) it.1 (flattenJsonDiff it.2) := by
      unfold buildByFile
      rw [List.foldl_append]
      rfl
    rw [hb, ih, contributingFiles_snoc]
    by_cases he : flattenJsonDiff it.2 = []
    · rw [he,
        show pushFileRecords ((contributingFiles l).map fun f => (f, fileRecords l f))
          it.1 [] = (contributingFiles l).map (fun f => (f, fileRecords l f)) from rfl]
      rw [if_pos (by rfl)]
      apply List.map_congr_left
      intro f _
      rw [fileRecords_snoc]
      split <;> simp [he]
    · rw [pushFileRecords_eq it.1 _ _ he]
      have hie : ¬((flattenJsonDiff it.2).isEmpty = true) := by
        intro hh
        exact he (List.isEmpty_iff.mp hh)
      rw [if_neg hie]
      by_cases hm : it.1 ∈ contributingFiles l
      · rw [if_pos ((mapHas_map_spec _ (fun f => fileRecords l f) _).mpr hm), if_pos hm,
          mapPushAll_map_spec]
        apply List.map_congr_left
        intro f hf
        rw [fileRecords_snoc]
        by_cases hfx : f = it.1
        · rw [if_pos hfx, if_pos (hfx ▸ rfl : it.1 = f)]
        · rw [if_neg hfx, if_neg (fun hh => hfx hh.symm), List.append_nil]
      · rw [if_neg (fun hh => hm ((mapHas_map_spec _ (fun f => fileRecords l f) _).mp hh)),
          if_neg hm]
        unfold mapPushAll
        rw [List.map_append, List.map_map, List.map_append]
        congr 1
        · apply List.map_congr_left
          intro f hf
          have hfx : f ≠ it.1 := fun hh => hm (hh ▸ hf)
          rw [Function.comp]
          rw [if_neg hfx, fileRecords_snoc, if_neg (fun hh => hfx hh.symm),
            List.append_nil]
        · rw [show List.map (fun e => if e.1 = it.1 then (e.1, e.2 ++ flattenJsonDiff it.2)
              else e) [(it.1, [])] =
              [(it.1, [] ++ flattenJsonDiff it.2)] from by simp]
          rw [show List.map (fun f => (f, fileRecords (l ++ [it]) f)) [it.1] =
              [(it.1, fileRecords (l ++ [it]) it.1)] from rfl]
          rw [fileRecords_snoc, fileRecords_nil_of_not_contributing l it.1 hm]
          simp

/-- Counterexample to C7: an item whose delta flattens to no records gets
no table at all, so the builder does not produce one table per distinct
file identifier. -/
theorem tables_fromReport_missing_table :
    buildTablesFromReport [("a.json", some (JVal.obj []))] = [] ∧
    (buildTablesFromReport [("a.json", some (JVal.obj []))]).length ≠ 1 := by
  constructor <;> decide

/-- C7 (amended): in per-file-full mode the table builder produces
exactly one table per distinct file identifier that contributes at least
one flattened record (a file all of whose deltas flatten to nothing gets
no table), named after the file, with columns
`[Path, Old Value, New Value]`, holding exactly that file's flattened
records as rows in input order, with tables ordered by the file's first
record-contributing appearance; on the spec's example
`["a.json", "b.json", "a.json"]` with non-empty deltas this is exactly
two tables, one per file, in first-seen order. -/
theorem tables_fromReport_grouping :
    (∀ items : List (String × Option JVal),
      buildTablesFromReport items = tablesSpec items) ∧
    buildTablesFromReport
        [("a.json", some (JVal.obj [("p", JVal.arr [JVal.num 1, JVal.num 2])])),
         ("b.json", some (JVal.obj [("q", JVal.arr [JVal.num 5])])),
         ("a.json", some (JVal.obj [("r", JVal.arr [JVal.num 3, JVal.num 0, JVal.num 0])]))] =
      [⟨"a.json", ["Path", "Old Value", "New Value"],
         [[some "p", some "1", some "2"], [some "r", some "3", none]]⟩,
       ⟨"b.json", ["Path", "Old Value", "New Value"],
         [[some "q", none, some "5"]]⟩] := by
  constructor
  · intro items
    unfold buildTablesFromReport tablesSpec
    rw [buildByFile_eq_spec, List.map_map]
    rfl
  · decide

/-- C8: in added-only mode the table's columns are `[Path, New Value]`
and its rows are exactly the renderings of the flattened records whose
`before` is absent — one row per such record, in order, and no row for
any record whose `before` is present; a concrete delta with one addition
and one modification yields exactly the one addition row. -/
theorem addedOnly_filter :
    (∀ delta : JVal,
      (addedOnlyTable delta).columns = ["Path", "New Value"] ∧
      (addedOnlyTable delta).rows =
        ((flattenJsonDiff (some delta)).filter (fun r => r.before.isNone)).map
          (fun r => [some r.path, stringifyCell r.after]) ∧
      (addedOnlyTable delta).rows.length =
        ((flattenJsonDiff (some delta)).filter (fun r => r.before.isNone)).length ∧
      (∀ row ∈ (addedOnlyTable delta).rows, ∃ r ∈ flattenJsonDiff (some delta),
        r.before = none ∧ row = [some r.path, stringifyCell r.after])) ∧
    addedOnlyTable
        (JVal.obj [("a", JVal.arr [JVal.num 1]), ("b", JVal.arr [JVal.num 1, JVal.num 2])]) =
      ⟨"Added", ["Path", "New Value"], [[some "a", some "1"]]⟩ := by
  constructor
  · intro delta
    refine ⟨rfl, rfl, by simp [addedOnlyTable], ?_⟩
    intro row hrow
    unfold addedOnlyTable at hrow
    simp only [List.mem_map] at hrow
    obtain ⟨r, hr, hfr⟩ := hrow
    rw [List.mem_filter] at hr
    exact ⟨r, hr.1, Option.isNone_iff_eq_none.mp hr.2, hfr.symm⟩
  · decide

/-- Witness for C8: the single addition row of the concrete delta indeed
stems from a record with absent `before`. -/
theorem addedOnly_filter_witness :
    ∃ r ∈ flattenJsonDiff (some (JVal.obj [("a", JVal.arr [JVal.num 1]),
        ("b", JVal.arr [JVal.num 1, JVal.num 2])])),
      r.before = none ∧ [some "a", some "1"] = [some r.path, stringifyCell r.after] :=
  (addedOnly_filter.1 _).2.2.2 [some "a", some "1"] (by decide)
